import Mathlib

/-!
Shallow embedding of `greedy.py` (romspline): the reduced-order-spline greedy
knot-selection algorithm.  Integer index arrays become `List ℕ`, real data
arrays become `List ℚ`, and the external spline-fitting capability
(`scipy.interpolate.UnivariateSpline` with `s=0`) is a parameter `FitCap`.
Fallible operations (Python `assert`) return `Option`.
-/

namespace Romspline

/-- `np.sort` on an integer index array: the ascending rearrangement. -/
def npSort (l : List ℕ) : List ℕ := l.insertionSort (· ≤ ·)

/-- `np.max` of a list (only applied to nonempty lists, as in the source). -/
def listMax : List ℚ → ℚ
  | [] => 0
  | a :: l => l.foldl max a

/-- `np.argmax`: index of the first occurrence of the maximum entry. -/
def argmaxIdx (l : List ℚ) : ℕ := l.findIdx (fun e => decide (e = listMax l))

/-- numpy fancy indexing `a[idxs]`. -/
def select (a : List ℚ) (idxs : List ℕ) : List ℚ := idxs.map (fun i => a.getD i 0)

/-- `np.max(np.abs(y))`, the scale used by relative-tolerance mode. -/
def ymaxOf (y : List ℚ) : ℚ := listMax (y.map (fun v => |v|))

/-- The external spline-fitting capability (`UnivariateSpline(xs, ys, k=deg, s=0)`):
given knot abscissas, knot ordinates and the degree, return a callable interpolant. -/
structure FitCap where
  fit : List ℚ → List ℚ → ℕ → ℚ → ℚ

/-- `errs = np.abs(s(x) - y)` where `s = UnivariateSpline(x[indices], y[indices], k=deg, s=0)`:
the pointwise absolute-error vector of the current spline on the full data. -/
def errVec (F : FitCap) (x y : List ℚ) (deg : ℕ) (indices : List ℕ) : List ℚ :=
  List.zipWith (fun xi yi => |F.fit (select x indices) (select y indices) deg xi - yi|) x y

/-- The mutable loop state of `_greedy`: sorted knot indices, selection-order
indices, and the convergence-error trace. -/
structure GreedyState where
  indices : List ℕ
  args : List ℕ
  errors : List ℚ
deriving DecidableEq

/-- One loop body of `_greedy` without the convergence exit: append the worst
error to the trace, append the worst index to `args`, insert it into `indices`
and re-sort (`np.hstack` + `np.sort`). -/
def greedyStep (F : FitCap) (x y : List ℚ) (deg : ℕ) (st : GreedyState) : GreedyState :=
  let errs := errVec F x y deg st.indices
  let imax := argmaxIdx errs
  { indices := npSort (st.indices ++ [imax])
    args := st.args ++ [imax]
    errors := st.errors ++ [errs.getD imax 0] }

/-- The convergence trim (`flag = 1` branch): net effect of appending and then
discarding the last element: `args = args[:-1]`, `indices = np.sort(args)`,
`errors = errors[:-1]`. -/
def trimStep (st : GreedyState) : GreedyState :=
  { indices := npSort st.args, args := st.args, errors := st.errors }

/-- `while flag == 0 and ctr < len(x)`: `ctr` increases by one per pass, so
`fuel = len(x) - ctr` counts the remaining admissible passes. -/
def greedyLoop (F : FitCap) (x y : List ℚ) (deg : ℕ) (tol : ℚ) :
    ℕ → GreedyState → GreedyState
  | 0, st => st
  | fuel + 1, st =>
    let errs := errVec F x y deg st.indices
    if errs.getD (argmaxIdx errs) 0 < tol then trimStep st
    else greedyLoop F x y deg tol fuel (greedyStep F x y deg st)

/-- `_seed(x, deg, seeds)` (takes `n = len(x)`): with `seeds is None`,
`np.sort(np.hstack([[0, len(x)-1], [ii*n//m + n//(2*m) for ii in range(m)]]))`
where `m = deg - 1`; otherwise the supplied seeds verbatim. -/
def _seed (n : ℕ) (deg : ℕ) (seeds : Option (List ℕ)) : List ℕ :=
  match seeds with
  | none =>
    npSort ([0, n - 1] ++
      (List.range (deg - 1)).map (fun ii => ii * n / (deg - 1) + n / (2 * (deg - 1))))
  | some s => s

/-- The tuple returned by `_greedy` (minus the re-fitted spline object):
sorted indices, selection-order indices, error trace, effective tolerance. -/
structure GreedyResult where
  indices : List ℕ
  args : List ℕ
  errors : List ℚ
  tol : ℚ
deriving DecidableEq

/-- `_greedy(x, y, tol, rel, deg, seeds)`: relative-mode scaling with its
`assert ymax > 0.` (modelled as `none`), seeding, and the greedy loop. -/
def _greedy (F : FitCap) (x y : List ℚ) (tol : ℚ) (rel : Bool) (deg : ℕ)
    (seeds : Option (List ℕ)) : Option GreedyResult :=
  let ymax : ℚ := if rel then ymaxOf y else 1
  if rel = true ∧ ¬ 0 < ymax then none
  else
    let etol := tol * ymax
    let indices := _seed x.length deg seeds
    let r := greedyLoop F x y deg etol (x.length - (indices.length + 1)) ⟨indices, indices, []⟩
    some ⟨r.indices, r.args, r.errors, etol⟩

/-- The attributes `ReducedOrderSpline.greedy` stores on the instance:
`indices`, `args`, `errors`, `tol`, `X = x[indices]`, `Y = y[indices]`,
`size = len(indices)`, `compression = len(y)/size`, `deg`. -/
structure Model where
  indices : List ℕ
  args : List ℕ
  errors : List ℚ
  tol : ℚ
  X : List ℚ
  Y : List ℚ
  size : ℕ
  compression : ℚ
  deg : ℕ
deriving DecidableEq

/-- Assembly of the model attributes from the `_greedy` return value. -/
def mkModel (x y : List ℚ) (deg : ℕ) (r : GreedyResult) : Model :=
  { indices := r.indices
    args := r.args
    errors := r.errors
    tol := r.tol
    X := select x r.indices
    Y := select y r.indices
    size := r.indices.length
    compression := (y.length : ℚ) / (r.indices.length : ℚ)
    deg := deg }

namespace ReducedOrderSpline

/-- `ReducedOrderSpline.greedy`: run `_greedy` and store the derived attributes. -/
def greedy (F : FitCap) (x y : List ℚ) (tol : ℚ) (rel : Bool) (deg : ℕ)
    (seeds : Option (List ℕ)) : Option Model :=
  (_greedy F x y tol rel deg seeds).map (mkModel x y deg)

/-- `ReducedOrderSpline.__init__`: with `y` absent no reduction runs
(`some none`: an object with `_made = False`); with `y` present, a missing `x`
defaults to `np.arange(len(y))`, the equal-length `assert` is checked
(failure is the outer `none`), and the greedy reduction runs. -/
def init (F : FitCap) (xOpt : Option (List ℚ)) (yOpt : Option (List ℚ)) (deg : ℕ)
    (tol : ℚ) (rel : Bool) (seeds : Option (List ℕ)) : Option (Option Model) :=
  match yOpt with
  | none => some none
  | some y =>
    let x := match xOpt with
      | none => (List.range y.length).map (fun i : ℕ => (i : ℚ))
      | some xs => xs
    if x.length = y.length then (greedy F x y tol rel deg seeds).map some
    else none

/-- `ReducedOrderSpline.verify` on a built model with interpolant `s` and stored
tolerance `tol`: `errors = y - s(x)` is returned, and the printed report is
`np.all(np.abs(errors) <= tol)`. -/
def verify (s : ℚ → ℚ) (tol : ℚ) (x y : List ℚ) : List ℚ × Bool :=
  let errors := List.zipWith (fun yi xi => yi - s xi) y x
  (errors, errors.all (fun e => decide (|e| ≤ tol)))

end ReducedOrderSpline

/-- The knot-set bookkeeping invariant of the data model: unique indices,
equal lengths of the two views, set-equality of `args` and `indices`, and
`indices` sorted ascending. -/
abbrev KnotInv (st : GreedyState) : Prop :=
  st.indices.Nodup ∧ st.args.length = st.indices.length ∧
  List.Perm st.args st.indices ∧ List.Sorted (· ≤ ·) st.indices

/-- Concrete instance of the fitting capability: the identically-zero interpolant
(what `UnivariateSpline` produces on all-zero data). -/
def zeroFit : FitCap := ⟨fun _ _ _ _ => 0⟩

/-! ### Basic facts about `listMax` and `argmaxIdx` -/

lemma le_foldl_max_init (l : List ℚ) : ∀ a : ℚ, a ≤ l.foldl max a := by
  induction l with
  | nil => intro a; exact le_refl a
  | cons b t ih =>
    intro a
    exact le_trans (le_max_left a b) (ih (max a b))

lemma le_foldl_max_of_mem (l : List ℚ) : ∀ (a e : ℚ), e ∈ l → e ≤ l.foldl max a := by
  induction l with
  | nil => intro a e he; simp at he
  | cons b t ih =>
    intro a e he
    rcases List.mem_cons.mp he with h | h
    · subst h
      exact le_trans (le_max_right a e) (le_foldl_max_init t (max a e))
    · exact ih (max a b) e h

lemma foldl_max_cases (l : List ℚ) : ∀ a : ℚ, l.foldl max a = a ∨ l.foldl max a ∈ l := by
  induction l with
  | nil => intro a; left; rfl
  | cons b t ih =>
    intro a
    rcases ih (max a b) with h | h
    · rcases le_total a b with hab | hab
      · right
        rw [List.foldl_cons, h, max_eq_right hab]
        exact List.mem_cons_self b t
      · left
        rw [List.foldl_cons, h, max_eq_left hab]
    · right
      exact List.mem_cons_of_mem b h

lemma le_listMax (l : List ℚ) (e : ℚ) (he : e ∈ l) : e ≤ listMax l := by
  cases l with
  | nil => simp at he
  | cons a t =>
    rcases List.mem_cons.mp he with h | h
    · subst h; exact le_foldl_max_init t e
    · exact le_foldl_max_of_mem t a e h

lemma listMax_mem (l : List ℚ) (hl : l ≠ []) : listMax l ∈ l := by
  cases l with
  | nil => exact absurd rfl hl
  | cons a t =>
    rcases foldl_max_cases t a with h | h
    · rw [listMax, h]; exact List.mem_cons_self a t
    · exact List.mem_cons_of_mem a h

lemma argmaxIdx_lt_length (l : List ℚ) (hl : l ≠ []) : argmaxIdx l < l.length :=
  List.findIdx_lt_length_of_exists ⟨listMax l, listMax_mem l hl, by simp⟩

lemma getD_argmaxIdx (l : List ℚ) (hl : l ≠ []) : l.getD (argmaxIdx l) 0 = listMax l := by
  have h := argmaxIdx_lt_length l hl
  rw [List.getD_eq_getElem l 0 h]
  have h2 : l.findIdx (fun e => decide (e = listMax l)) < l.length := h
  exact of_decide_eq_true (@List.findIdx_getElem _ _ _ h2)

lemma getD_lt_listMax_of_lt_argmaxIdx (l : List ℚ) (j : ℕ) (hj : j < argmaxIdx l) :
    l.getD j 0 < listMax l := by
  have hlen : argmaxIdx l ≤ l.length := List.findIdx_le_length _
  have hjl : j < l.length := lt_of_lt_of_le hj hlen
  have hj2 : j < l.findIdx (fun e => decide (e = listMax l)) := hj
  have hne := List.not_of_lt_findIdx hj2
  rw [List.getD_eq_getElem l 0 hjl]
  have hmem : l[j] ∈ l := List.getElem_mem hjl
  have hle : l[j] ≤ listMax l := le_listMax l _ hmem
  rcases lt_or_eq_of_le hle with h | h
  · exact h
  · rw [h] at hne
    simp at hne

/-! ### Structural lemmas about sorting and the greedy loop -/

lemma npSort_sorted (l : List ℕ) : List.Sorted (· ≤ ·) (npSort l) :=
  List.sorted_insertionSort _ l

lemma npSort_perm (l : List ℕ) : List.Perm (npSort l) l :=
  List.perm_insertionSort _ l

lemma trimStep_eq (st : GreedyState) (hperm : List.Perm st.args st.indices)
    (hsort : List.Sorted (· ≤ ·) st.indices) :
    trimStep st = ⟨st.indices, st.args, st.errors⟩ := by
  unfold trimStep
  have h : npSort st.args = st.indices :=
    List.eq_of_perm_of_sorted ((npSort_perm st.args).trans hperm) (npSort_sorted _) hsort
  rw [h]

lemma greedyLoop_zero (F : FitCap) (x y : List ℚ) (deg : ℕ) (tol : ℚ) (st : GreedyState) :
    greedyLoop F x y deg tol 0 st = st := rfl

lemma greedyLoop_succ (F : FitCap) (x y : List ℚ) (deg : ℕ) (tol : ℚ) (fuel : ℕ)
    (st : GreedyState) :
    greedyLoop F x y deg tol (fuel + 1) st =
      if (errVec F x y deg st.indices).getD (argmaxIdx (errVec F x y deg st.indices)) 0 < tol
      then trimStep st
      else greedyLoop F x y deg tol fuel (greedyStep F x y deg st) := rfl

lemma greedyStep_indices (F : FitCap) (x y : List ℚ) (deg : ℕ) (st : GreedyState) :
    (greedyStep F x y deg st).indices =
      npSort (st.indices ++ [argmaxIdx (errVec F x y deg st.indices)]) := rfl

lemma greedyStep_args (F : FitCap) (x y : List ℚ) (deg : ℕ) (st : GreedyState) :
    (greedyStep F x y deg st).args =
      st.args ++ [argmaxIdx (errVec F x y deg st.indices)] := rfl

lemma greedyStep_perm (F : FitCap) (x y : List ℚ) (deg : ℕ) (st : GreedyState)
    (hperm : List.Perm st.args st.indices) :
    List.Perm (greedyStep F x y deg st).args (greedyStep F x y deg st).indices := by
  rw [greedyStep_indices, greedyStep_args]
  exact (hperm.append (List.Perm.refl _)).trans (npSort_perm _).symm

lemma greedyStep_sorted (F : FitCap) (x y : List ℚ) (deg : ℕ) (st : GreedyState) :
    List.Sorted (· ≤ ·) (greedyStep F x y deg st).indices := by
  rw [greedyStep_indices]; exact npSort_sorted _

lemma greedyStep_indices_length (F : FitCap) (x y : List ℚ) (deg : ℕ) (st : GreedyState) :
    (greedyStep F x y deg st).indices.length = st.indices.length + 1 := by
  rw [greedyStep_indices]
  unfold npSort
  rw [List.length_insertionSort]
  simp

lemma greedyLoop_cases (F : FitCap) (x y : List ℚ) (deg : ℕ) (tol : ℚ) :
    ∀ (fuel : ℕ) (st : GreedyState), List.Perm st.args st.indices →
      List.Sorted (· ≤ ·) st.indices →
      ((∀ e ∈ errVec F x y deg (greedyLoop F x y deg tol fuel st).indices, e < tol) ∨
        (greedyLoop F x y deg tol fuel st).indices.length = st.indices.length + fuel) := by
  intro fuel
  induction fuel with
  | zero => intro st _ _; right; rfl
  | succ n ih =>
    intro st hperm hsort
    rw [greedyLoop_succ]
    by_cases h :
        (errVec F x y deg st.indices).getD (argmaxIdx (errVec F x y deg st.indices)) 0 < tol
    · rw [if_pos h, trimStep_eq st hperm hsort]
      left
      intro e he
      have hne : errVec F x y deg st.indices ≠ [] := by
        intro hempty
        rw [hempty] at he
        simp at he
      calc e ≤ listMax (errVec F x y deg st.indices) := le_listMax _ e he
        _ = (errVec F x y deg st.indices).getD (argmaxIdx (errVec F x y deg st.indices)) 0 :=
          (getD_argmaxIdx _ hne).symm
        _ < tol := h
    · rw [if_neg h]
      rcases ih (greedyStep F x y deg st) (greedyStep_perm F x y deg st hperm)
          (greedyStep_sorted F x y deg st) with hl | hr
      · left; exact hl
      · right
        rw [hr, greedyStep_indices_length]
        omega

lemma zipWith_abs_nonneg (g : ℚ → ℚ) :
    ∀ (x y : List ℚ), ∀ e ∈ List.zipWith (fun xi yi => |g xi - yi|) x y, 0 ≤ e := by
  intro x
  induction x with
  | nil => intro y e he; simp at he
  | cons a t ih =>
    intro y e he
    cases y with
    | nil => simp at he
    | cons b s =>
      rw [List.zipWith_cons_cons] at he
      rcases List.mem_cons.mp he with h | h
      · rw [h]; exact abs_nonneg _
      · exact ih s e h

lemma errVec_nonneg (F : FitCap) (x y : List ℚ) (deg : ℕ) (idxs : List ℕ) :
    ∀ e ∈ errVec F x y deg idxs, 0 ≤ e :=
  zipWith_abs_nonneg (fun xi => F.fit (select x idxs) (select y idxs) deg xi) x y

lemma seed_default_length (n deg : ℕ) (hd : 1 ≤ deg) :
    (_seed n deg none).length = deg + 1 := by
  unfold _seed npSort
  rw [List.length_insertionSort]
  simp only [List.length_append, List.length_map, List.length_range, List.length_cons,
    List.length_nil]
  omega

lemma argmaxIdx_cons_eq_zero (a : ℚ) (l : List ℚ) (h : a = listMax (a :: l)) :
    argmaxIdx (a :: l) = 0 := by
  unfold argmaxIdx
  rw [List.findIdx_cons, decide_eq_true h]
  rfl

lemma listMax_zeros2 : listMax [0, 0] = (0 : ℚ) := by
  simp only [listMax, List.foldl_cons, List.foldl_nil, max_self]

lemma listMax_zeros3 : listMax [0, 0, 0] = (0 : ℚ) := by
  simp only [listMax, List.foldl_cons, List.foldl_nil, max_self]

lemma listMax_zeros5 : listMax [0, 0, 0, 0, 0] = (0 : ℚ) := by
  simp only [listMax, List.foldl_cons, List.foldl_nil, max_self]

/-! ### Claim theorems -/

/-- C1: Convergence trim — in the greedy loop, if the error appended in the
current iteration is strictly less than the effective tolerance, the loop stops
and the last appended index is discarded from both `args` and `indices` and the
last trace entry is removed (the state returned is exactly the pre-speculation
state), and the final model's `size` equals `len(indices)` after this trim. -/
theorem convergence_trim (F : FitCap) (x y : List ℚ) (deg : ℕ) (tol : ℚ) (fuel : ℕ)
    (st : GreedyState) (hperm : List.Perm st.args st.indices)
    (hsort : List.Sorted (· ≤ ·) st.indices)
    (hconv : (errVec F x y deg st.indices).getD
      (argmaxIdx (errVec F x y deg st.indices)) 0 < tol) :
    greedyLoop F x y deg tol (fuel + 1) st = ⟨st.indices, st.args, st.errors⟩ ∧
    (mkModel x y deg ⟨st.indices, st.args, st.errors, tol⟩).size = st.indices.length := by
  refine ⟨?_, rfl⟩
  rw [greedyLoop_succ, if_pos hconv, trimStep_eq st hperm hsort]

theorem convergence_trim_witness :
    greedyLoop zeroFit [0, 1, 2] [0, 0, 0] 5 1 3 ⟨[0, 2], [0, 2], []⟩ =
      ⟨[0, 2], [0, 2], []⟩ ∧
    (mkModel [0, 1, 2] [0, 0, 0] 5 ⟨[0, 2], [0, 2], [], 1⟩).size = ([0, 2] : List ℕ).length := by
  refine convergence_trim zeroFit [0, 1, 2] [0, 0, 0] 5 1 2 ⟨[0, 2], [0, 2], []⟩
    (by decide) (by decide) ?_
  show (errVec zeroFit [0, 1, 2] [0, 0, 0] 5 [0, 2]).getD
    (argmaxIdx (errVec zeroFit [0, 1, 2] [0, 0, 0] 5 [0, 2])) 0 < 1
  have herr : errVec zeroFit [0, 1, 2] [0, 0, 0] 5 ([0, 2] : List ℕ) = [0, 0, 0] := by
    simp [errVec, zeroFit, select]
  rw [herr, argmaxIdx_cons_eq_zero 0 [0, 0] listMax_zeros3.symm]
  exact zero_lt_one

/-- C2 counterexample: at degree 3 and domain length 4 (valid: `d ≥ 2`, `n > d`)
the seeder emits the index 3 twice — the sort does not remove duplicates, so the
produced indices are not unique. -/
theorem seed_not_unique :
    _seed 4 3 none = [0, 1, 3, 3] ∧ ¬ (_seed 4 3 none).Nodup := by decide

/-- C2 (amended): for degree `d ≥ 2` and domain length `n > d`, the default
seeder produces exactly `d+1` indices, sorted ascending, including `0` and
`n−1`, as the multiset union of the two endpoints with the interior formula
`i*n÷(d−1) + n÷(2(d−1))`; duplicates are NOT removed, so the entries need not
be unique. -/
theorem seed_shape (n deg : ℕ) (hd : 2 ≤ deg) (_hn : deg < n) :
    (_seed n deg none).length = deg + 1 ∧
    List.Sorted (· ≤ ·) (_seed n deg none) ∧
    0 ∈ _seed n deg none ∧ (n - 1) ∈ _seed n deg none ∧
    List.Perm (_seed n deg none)
      ([0, n - 1] ++ (List.range (deg - 1)).map
        (fun ii => ii * n / (deg - 1) + n / (2 * (deg - 1)))) := by
  have hperm : List.Perm (_seed n deg none)
      ([0, n - 1] ++ (List.range (deg - 1)).map
        (fun ii => ii * n / (deg - 1) + n / (2 * (deg - 1)))) := npSort_perm _
  refine ⟨seed_default_length n deg (by omega), npSort_sorted _, ?_, ?_, hperm⟩
  · exact hperm.mem_iff.mpr (by simp)
  · exact hperm.mem_iff.mpr (by simp)

theorem seed_shape_witness :
    (_seed 10 3 none).length = 3 + 1 ∧
    List.Sorted (· ≤ ·) (_seed 10 3 none) ∧
    0 ∈ _seed 10 3 none ∧ (10 - 1) ∈ _seed 10 3 none ∧
    List.Perm (_seed 10 3 none)
      ([0, 10 - 1] ++ (List.range (3 - 1)).map
        (fun ii => ii * 10 / (3 - 1) + 10 / (2 * (3 - 1)))) :=
  seed_shape 10 3 (by decide) (by decide)

/-- C3: the greedy loop always terminates: for every valid input (relative mode
only on data with a positive maximum absolute value; a sorted seed set, as the
default seeder produces) `_greedy` returns a result without raising, and either
every pointwise error of the delivered knot set is strictly below the effective
tolerance (convergence) or the number of selected knots has grown to the point
where one more would reach the full domain length (exhaustion). -/
theorem greedy_terminates (F : FitCap) (x y : List ℚ) (tol : ℚ) (rel : Bool) (deg : ℕ)
    (seeds : Option (List ℕ)) (hrel : rel = true → 0 < ymaxOf y)
    (hs : List.Sorted (· ≤ ·) (_seed x.length deg seeds)) :
    ∃ r, _greedy F x y tol rel deg seeds = some r ∧
      ((∀ e ∈ errVec F x y deg r.indices, e < r.tol) ∨
        x.length ≤ r.indices.length + 1) := by
  have hcond : ¬ (rel = true ∧ ¬ 0 < (if rel then ymaxOf y else 1)) := by
    cases rel with
    | false => intro h; exact Bool.noConfusion h.1
    | true => intro h; exact h.2 (by simpa using hrel rfl)
  simp only [_greedy]
  rw [if_neg hcond]
  refine ⟨_, rfl, ?_⟩
  rcases greedyLoop_cases F x y deg (tol * if rel then ymaxOf y else 1)
      (x.length - ((_seed x.length deg seeds).length + 1))
      ⟨_seed x.length deg seeds, _seed x.length deg seeds, []⟩
      (List.Perm.refl _) hs with h | h
  · exact Or.inl h
  · right
    have h2 : (greedyLoop F x y deg (tol * if rel then ymaxOf y else 1)
        (x.length - ((_seed x.length deg seeds).length + 1))
        ⟨_seed x.length deg seeds, _seed x.length deg seeds, []⟩).indices.length =
        (_seed x.length deg seeds).length +
          (x.length - ((_seed x.length deg seeds).length + 1)) := h
    show x.length ≤ (greedyLoop F x y deg (tol * if rel then ymaxOf y else 1)
        (x.length - ((_seed x.length deg seeds).length + 1))
        ⟨_seed x.length deg seeds, _seed x.length deg seeds, []⟩).indices.length + 1
    omega

theorem greedy_terminates_witness :
    ∃ r, _greedy zeroFit [0, 1, 2, 3] [0, 0, 0, 0] 1 false 5 none = some r ∧
      ((∀ e ∈ errVec zeroFit [0, 1, 2, 3] [0, 0, 0, 0] 5 r.indices, e < r.tol) ∨
        ([0, 1, 2, 3] : List ℚ).length ≤ r.indices.length + 1) :=
  greedy_terminates zeroFit [0, 1, 2, 3] [0, 0, 0, 0] 1 false 5 none
    (fun h => Bool.noConfusion h) (by decide)

/-- C5: tolerance semantics — relative mode fails (degenerate-input error) when
`max |y|` is exactly zero; otherwise the effective tolerance returned and used by
the whole loop is the fixed value `tol * max |y|` computed at the start; and the
loop's convergence comparison is strict `<` against that effective tolerance:
below it the loop stops and trims, at or above it (including exact equality) the
loop takes a greedy step and continues. -/
theorem tolerance_semantics (F : FitCap) (x y : List ℚ) (tol : ℚ) (deg : ℕ)
    (seeds : Option (List ℕ)) :
    (ymaxOf y = 0 → _greedy F x y tol true deg seeds = none) ∧
    (0 < ymaxOf y →
      ∃ r, _greedy F x y tol true deg seeds = some r ∧ r.tol = tol * ymaxOf y) ∧
    (∀ (etol : ℚ) (fuel : ℕ) (st : GreedyState),
      (errVec F x y deg st.indices).getD (argmaxIdx (errVec F x y deg st.indices)) 0 < etol →
      greedyLoop F x y deg etol (fuel + 1) st = trimStep st) ∧
    (∀ (etol : ℚ) (fuel : ℕ) (st : GreedyState),
      etol ≤ (errVec F x y deg st.indices).getD (argmaxIdx (errVec F x y deg st.indices)) 0 →
      greedyLoop F x y deg etol (fuel + 1) st =
        greedyLoop F x y deg etol fuel (greedyStep F x y deg st)) := by
  refine ⟨?_, ?_, ?_, ?_⟩
  · intro h
    simp only [_greedy]
    rw [if_pos ⟨trivial, by rw [if_pos trivial, h]; exact lt_irrefl 0⟩]
  · intro h
    simp only [_greedy]
    rw [if_neg (fun hc => hc.2 (by rw [if_pos trivial]; exact h))]
    refine ⟨_, rfl, ?_⟩
    show tol * (if True then ymaxOf y else 1) = tol * ymaxOf y
    rw [if_pos trivial]
  · intro etol fuel st h
    rw [greedyLoop_succ, if_pos h]
  · intro etol fuel st h
    rw [greedyLoop_succ, if_neg (not_lt.mpr h)]

theorem tolerance_semantics_witness :
    _greedy zeroFit [0, 1] [0, 0] 1 true 5 none = none ∧
    (∃ r, _greedy zeroFit [0, 1] [1, 1] 1 true 5 none = some r ∧
      r.tol = 1 * ymaxOf [1, 1]) ∧
    greedyLoop zeroFit [0, 1] [0, 0] 5 1 1 ⟨[0, 1], [0, 1], []⟩ =
      trimStep ⟨[0, 1], [0, 1], []⟩ ∧
    greedyLoop zeroFit [0, 1] [0, 0] 5 0 1 ⟨[0, 1], [0, 1], []⟩ =
      greedyLoop zeroFit [0, 1] [0, 0] 5 0 0
        (greedyStep zeroFit [0, 1] [0, 0] 5 ⟨[0, 1], [0, 1], []⟩) := by
  have herr : errVec zeroFit [0, 1] [0, 0] 5 ([0, 1] : List ℕ) = [0, 0] := by
    simp [errVec, zeroFit, select]
  have harg : argmaxIdx ([0, 0] : List ℚ) = 0 :=
    argmaxIdx_cons_eq_zero 0 [0] listMax_zeros2.symm
  have hymax0 : ymaxOf [0, 0] = 0 := by
    simp only [ymaxOf, List.map_cons, List.map_nil, abs_zero]
    exact listMax_zeros2
  have hymax1 : (0 : ℚ) < ymaxOf [1, 1] := by
    simp only [ymaxOf, List.map_cons, List.map_nil, abs_one, listMax,
      List.foldl_cons, List.foldl_nil, max_self]
    exact zero_lt_one
  refine ⟨(tolerance_semantics zeroFit [0, 1] [0, 0] 1 5 none).1 hymax0,
    (tolerance_semantics zeroFit [0, 1] [1, 1] 1 5 none).2.1 hymax1,
    (tolerance_semantics zeroFit [0, 1] [0, 0] 1 5 none).2.2.1 1 0 ⟨[0, 1], [0, 1], []⟩ ?_,
    (tolerance_semantics zeroFit [0, 1] [0, 0] 1 5 none).2.2.2 0 0 ⟨[0, 1], [0, 1], []⟩ ?_⟩
  · show (errVec zeroFit [0, 1] [0, 0] 5 [0, 1]).getD
      (argmaxIdx (errVec zeroFit [0, 1] [0, 0] 5 [0, 1])) 0 < 1
    rw [herr, harg]
    exact zero_lt_one
  · show (0 : ℚ) ≤ (errVec zeroFit [0, 1] [0, 0] 5 [0, 1]).getD
      (argmaxIdx (errVec zeroFit [0, 1] [0, 0] 5 [0, 1])) 0
    rw [herr, harg]
    exact le_refl 0

/-- C6 counterexample: with effective tolerance zero (a non-negative tolerance
allowed by the data model) on all-zero data — where the exact `s=0` spline fit
is the identically-zero interpolant — every pointwise error is zero, so the
`argmax` re-selects index 0, which is already a knot: after one loop iteration
`indices` contains a duplicate, refuting uniqueness at every step. -/
theorem knot_uniqueness_fails :
    _greedy zeroFit [0, 1, 2, 3, 4] [0, 0, 0, 0, 0] 0 false 2 none =
      some ⟨[0, 0, 2, 4], [0, 2, 4, 0], [0], 0⟩ ∧
    ¬ ([0, 0, 2, 4] : List ℕ).Nodup := by
  have herr : errVec zeroFit [0, 1, 2, 3, 4] [0, 0, 0, 0, 0] 2 ([0, 2, 4] : List ℕ) =
      [0, 0, 0, 0, 0] := by
    simp [errVec, zeroFit, select]
  have harg : argmaxIdx ([0, 0, 0, 0, 0] : List ℚ) = 0 :=
    argmaxIdx_cons_eq_zero 0 [0, 0, 0, 0] listMax_zeros5.symm
  have hsortstep : npSort [0, 2, 4, 0] = [0, 0, 2, 4] := by decide
  have hstep : greedyStep zeroFit [0, 1, 2, 3, 4] [0, 0, 0, 0, 0] 2 ⟨[0, 2, 4], [0, 2, 4], []⟩ =
      ⟨[0, 0, 2, 4], [0, 2, 4, 0], [0]⟩ := by
    simp only [greedyStep, herr, harg, List.cons_append, List.nil_append,
      List.getD_cons_zero]
    rw [hsortstep]
  have hloop : greedyLoop zeroFit [0, 1, 2, 3, 4] [0, 0, 0, 0, 0] 2 0 1
      ⟨[0, 2, 4], [0, 2, 4], []⟩ = ⟨[0, 0, 2, 4], [0, 2, 4, 0], [0]⟩ := by
    rw [greedyLoop_succ]
    simp only [herr, harg, List.getD_cons_zero]
    rw [if_neg (lt_irrefl (0 : ℚ)), greedyLoop_zero, hstep]
  constructor
  · have hseed : _seed ([0, 1, 2, 3, 4] : List ℚ).length 2 none = [0, 2, 4] := by decide
    simp only [_greedy]
    rw [if_neg (fun hc => Bool.noConfusion hc.1)]
    rw [hseed]
    have hfuel : ([0, 1, 2, 3, 4] : List ℚ).length - (([0, 2, 4] : List ℕ).length + 1) = 1 := by
      decide
    rw [hfuel]
    have htol : (0 : ℚ) * (if (false : Bool) = true then ymaxOf [0, 0, 0, 0, 0] else 1) = 0 := by
      rw [if_neg (fun hc => Bool.noConfusion hc), mul_one]
    rw [htol, hloop]
  · decide

/-- C6 (amended): provided the fitting capability interpolates exactly at the
knots (zero pointwise error at every knot index) and the effective tolerance is
positive, every step of the greedy loop preserves the knot-set invariant:
`indices` unique, `len(args) = len(indices)`, `args` and `indices` set-equal
(same multiset), and `indices` sorted ascending.  (With zero tolerance the
uniqueness part can fail, as the counterexample shows.) -/
theorem knot_invariant (F : FitCap) (x y : List ℚ) (deg : ℕ) (tol : ℚ)
    (hE : ∀ idxs : List ℕ, ∀ i ∈ idxs, (errVec F x y deg idxs).getD i 0 = 0)
    (htol : 0 < tol) :
    ∀ (fuel : ℕ) (st : GreedyState), KnotInv st → KnotInv (greedyLoop F x y deg tol fuel st) := by
  intro fuel
  induction fuel with
  | zero => intro st h; exact h
  | succ n ih =>
    intro st h
    obtain ⟨hnd, hlen, hperm, hsort⟩ := h
    rw [greedyLoop_succ]
    by_cases hc :
        (errVec F x y deg st.indices).getD (argmaxIdx (errVec F x y deg st.indices)) 0 < tol
    · rw [if_pos hc, trimStep_eq st hperm hsort]
      exact ⟨hnd, hlen, hperm, hsort⟩
    · rw [if_neg hc]
      apply ih
      have himax : argmaxIdx (errVec F x y deg st.indices) ∉ st.indices := by
        intro hmem
        exact hc (by rw [hE st.indices _ hmem]; exact htol)
      have hnd2 : (st.indices ++ [argmaxIdx (errVec F x y deg st.indices)]).Nodup := by
        refine List.Nodup.append hnd (List.nodup_singleton _) ?_
        intro a ha hb
        rw [List.mem_singleton] at hb
        rw [hb] at ha
        exact himax ha
      refine ⟨?_, ?_, greedyStep_perm F x y deg st hperm, greedyStep_sorted F x y deg st⟩
      · rw [greedyStep_indices]
        exact ((npSort_perm _).nodup_iff).mpr hnd2
      · rw [greedyStep_indices, greedyStep_args]
        unfold npSort
        rw [List.length_insertionSort]
        simp [hlen]

theorem knot_invariant_witness :
    KnotInv (greedyLoop zeroFit [0, 1, 2] [0, 0, 0] 5 1 1 ⟨[0, 2], [0, 2], []⟩) := by
  refine knot_invariant zeroFit [0, 1, 2] [0, 0, 0] 5 1 ?_ zero_lt_one 1
    ⟨[0, 2], [0, 2], []⟩ (by decide)
  intro idxs i _
  have herr : errVec zeroFit [0, 1, 2] [0, 0, 0] 5 idxs = [0, 0, 0] := by
    simp [errVec, zeroFit, select]
  rw [herr]
  exact match i with
  | 0 => rfl
  | 1 => rfl
  | 2 => rfl
  | n + 3 => rfl

lemma verify_all_iff (s : ℚ → ℚ) (tol : ℚ) :
    ∀ (y x : List ℚ),
      ((List.zipWith (fun yi xi => yi - s xi) y x).all (fun e => decide (|e| ≤ tol)) = true ↔
        ∀ p ∈ List.zip y x, |s p.2 - p.1| ≤ tol) := by
  intro y
  induction y with
  | nil => intro x; simp
  | cons b t ih =>
    intro x
    cases x with
    | nil => simp
    | cons a u =>
      rw [List.zipWith_cons_cons, List.zip_cons_cons, List.all_cons,
        Bool.and_eq_true, ih u]
      constructor
      · rintro ⟨h1, h2⟩
        intro p hp
        rcases List.mem_cons.mp hp with h | h
        · rw [h]
          calc |s (b, a).2 - (b, a).1| = |b - s a| := abs_sub_comm _ _
            _ ≤ tol := of_decide_eq_true h1
        · exact h2 p h
      · intro h
        refine ⟨decide_eq_true ?_, fun p hp => h p (List.mem_cons_of_mem _ hp)⟩
        calc |b - s a| = |s a - b| := abs_sub_comm _ _
          _ ≤ tol := h (b, a) (List.mem_cons_self _ _)

/-- C7 counterexample: on data `x = [0]`, `y = [-1]` with the zero interpolant,
`verify` returns the signed error vector `y - s(x) = [-1]`, not the absolute
pointwise error vector `|s(x) - y| = [1]` that the claim says it computes. -/
theorem verify_signed_counterexample :
    (ReducedOrderSpline.verify (fun _ => 0) 1 [0] [-1]).1 ≠
      List.zipWith (fun xi yi => |(fun _ : ℚ => (0 : ℚ)) xi - yi|) [0] [-1] := by
  have h1 : (ReducedOrderSpline.verify (fun _ => 0) 1 [0] [-1]).1 = [-1] := by
    simp [ReducedOrderSpline.verify]
  have h2 : List.zipWith (fun xi yi => |(fun _ : ℚ => (0 : ℚ)) xi - yi|) [0] [-1] = [1] := by
    norm_num
  rw [h1, h2]
  intro hEq
  simp only [List.cons.injEq, and_true] at hEq
  norm_num at hEq

/-- C7 (amended): the verification operation computes the signed pointwise
error vector `y - interpolant(x)`, and the report it prints is whether every
pointwise absolute error `|interpolant(x) - y|` is within (≤) the stored
tolerance. -/
theorem verify_semantics (s : ℚ → ℚ) (tol : ℚ) (x y : List ℚ) :
    (ReducedOrderSpline.verify s tol x y).1 = List.zipWith (fun yi xi => yi - s xi) y x ∧
    ((ReducedOrderSpline.verify s tol x y).2 = true ↔
      ∀ p ∈ List.zip y x, |s p.2 - p.1| ≤ tol) :=
  ⟨rfl, verify_all_iff s tol y x⟩

/-- C8: each greedy iteration appends to `args` the index of the maximum entry
of the pointwise absolute-error vector; that index is in range, every entry is
bounded by the entry there, and every entry strictly before it is strictly
smaller (first occurrence wins on ties). -/
theorem worst_point_selection (F : FitCap) (x y : List ℚ) (deg : ℕ) (st : GreedyState)
    (hne : errVec F x y deg st.indices ≠ []) :
    (greedyStep F x y deg st).args =
      st.args ++ [argmaxIdx (errVec F x y deg st.indices)] ∧
    argmaxIdx (errVec F x y deg st.indices) < (errVec F x y deg st.indices).length ∧
    (∀ j, (errVec F x y deg st.indices).getD j 0 ≤
        (errVec F x y deg st.indices).getD (argmaxIdx (errVec F x y deg st.indices)) 0) ∧
    (∀ j, j < argmaxIdx (errVec F x y deg st.indices) →
      (errVec F x y deg st.indices).getD j 0 <
        (errVec F x y deg st.indices).getD (argmaxIdx (errVec F x y deg st.indices)) 0) := by
  have hmax := getD_argmaxIdx (errVec F x y deg st.indices) hne
  refine ⟨greedyStep_args F x y deg st, argmaxIdx_lt_length _ hne, ?_, ?_⟩
  · intro j
    rw [hmax]
    by_cases hj : j < (errVec F x y deg st.indices).length
    · rw [List.getD_eq_getElem _ 0 hj]
      exact le_listMax _ _ (List.getElem_mem hj)
    · rw [List.getD_eq_default _ 0 (by omega)]
      exact errVec_nonneg F x y deg st.indices _ (listMax_mem _ hne)
  · intro j hj
    rw [hmax]
    exact getD_lt_listMax_of_lt_argmaxIdx _ j hj

theorem worst_point_selection_witness :
    (greedyStep zeroFit [0, 1] [1, 2] 5 ⟨[0, 1], [0, 1], []⟩).args =
      ([0, 1] : List ℕ) ++ [argmaxIdx (errVec zeroFit [0, 1] [1, 2] 5 [0, 1])] ∧
    argmaxIdx (errVec zeroFit [0, 1] [1, 2] 5 [0, 1]) <
      (errVec zeroFit [0, 1] [1, 2] 5 [0, 1]).length ∧
    (∀ j, (errVec zeroFit [0, 1] [1, 2] 5 [0, 1]).getD j 0 ≤
        (errVec zeroFit [0, 1] [1, 2] 5 [0, 1]).getD
          (argmaxIdx (errVec zeroFit [0, 1] [1, 2] 5 [0, 1])) 0) ∧
    (∀ j, j < argmaxIdx (errVec zeroFit [0, 1] [1, 2] 5 [0, 1]) →
      (errVec zeroFit [0, 1] [1, 2] 5 [0, 1]).getD j 0 <
        (errVec zeroFit [0, 1] [1, 2] 5 [0, 1]).getD
          (argmaxIdx (errVec zeroFit [0, 1] [1, 2] 5 [0, 1])) 0) :=
  worst_point_selection zeroFit [0, 1] [1, 2] 5 ⟨[0, 1], [0, 1], []⟩
    (by simp [errVec])

/-- C9: reducing a dataset whose length equals `deg + 1` with the default
seeder runs zero greedy iterations: `_greedy` returns the seed index set
unchanged as both `indices` and `args`, with an empty convergence trace. -/
theorem boundary_seed_only (F : FitCap) (x y : List ℚ) (tol : ℚ) (deg : ℕ)
    (hd : 2 ≤ deg) (hx : x.length = deg + 1) :
    ∃ r, _greedy F x y tol false deg none = some r ∧
      r.indices = _seed x.length deg none ∧ r.args = _seed x.length deg none ∧
      r.errors = [] := by
  have hfuel : x.length - ((_seed x.length deg none).length + 1) = 0 := by
    rw [seed_default_length x.length deg (by omega), hx]
    omega
  simp only [_greedy]
  rw [if_neg (fun hc => Bool.noConfusion hc.1)]
  rw [hfuel, greedyLoop_zero]
  exact ⟨_, rfl, rfl, rfl, rfl⟩

theorem boundary_seed_only_witness :
    ∃ r, _greedy zeroFit [0, 1, 2] [5, 6, 7] 1 false 2 none = some r ∧
      r.indices = _seed ([0, 1, 2] : List ℚ).length 2 none ∧
      r.args = _seed ([0, 1, 2] : List ℚ).length 2 none ∧ r.errors = [] :=
  boundary_seed_only zeroFit [0, 1, 2] [5, 6, 7] 1 2 (by decide) rfl

/-- C10: if the constructor receives ordinates `y` but no abscissas, the
abscissas default to the index labels `0, 1, ..., len(y)-1`; their length
equals `len(y)` so the equal-length check holds trivially, no length error is
raised, and the greedy reduction proceeds on exactly those default abscissas. -/
theorem default_abscissas (F : FitCap) (y : List ℚ) (deg : ℕ) (tol : ℚ)
    (seeds : Option (List ℕ)) :
    ((List.range y.length).map (fun i : ℕ => (i : ℚ))).length = y.length ∧
    ReducedOrderSpline.init F none (some y) deg tol false seeds =
      (ReducedOrderSpline.greedy F ((List.range y.length).map (fun i : ℕ => (i : ℚ)))
        y tol false deg seeds).map some ∧
    ReducedOrderSpline.init F none (some y) deg tol false seeds ≠ none := by
  have hlen : ((List.range y.length).map (fun i : ℕ => (i : ℚ))).length = y.length := by
    rw [List.length_map, List.length_range]
  refine ⟨hlen, ?_, ?_⟩
  · simp only [ReducedOrderSpline.init]
    rw [if_pos hlen]
  · simp only [ReducedOrderSpline.init]
    rw [if_pos hlen]
    simp only [ReducedOrderSpline.greedy, _greedy]
    rw [if_neg (fun hc => Bool.noConfusion hc.1)]
    simp
